import Mathlib

/-!
Shallow embedding of the Exam Seating Planner allocation engine:
the three strategies of `allocator.py` (`allocate_rollwise`,
`allocate_random`, `allocate_anti_cheating`) over the store interface of
`database.py` (`get_all_students`, `get_all_rooms`, `clear_allocations`,
`insert_allocation`, `log_activity`).

The store is a record of lists; SQL `INSERT` appends, `DELETE` empties,
`SELECT ... ORDER BY` sorts (SQLite's default BINARY collation on TEXT is
byte order of UTF-8, which agrees with the code-point lexicographic order
on `String`).  Python's `random.shuffle` is modelled by an explicit
shuffle function parameter; theorems quantify over all permutations.
`a_index`/`b_index` cursors into the two fixed group lists are modelled
by consuming the corresponding suffix lists head-first.
-/

namespace ExamSeating

/-- A row of the `students` table (`roll_no` is the primary key). -/
structure Student where
  roll_no : String
  name : String
  course : String
  semester : String
  email : String
  subject_code : String
  deriving DecidableEq, Repr

/-- A row of the `rooms` table (`room_no` is the primary key). -/
structure Room where
  room_no : String
  building : String
  rows : Nat
  columns : Nat
  capacity : Nat
  deriving DecidableEq, Repr

/-- A row of the `seating_allocations` table. -/
structure AllocationRec where
  roll_no : String
  room_no : String
  row_num : Nat
  col_num : Nat
  seat_number : String
  allocation_method : String
  deriving DecidableEq, Repr

/-- The SQLite database of `database.py`, as plain lists in insertion order. -/
structure Store where
  students : List Student
  rooms : List Room
  allocations : List AllocationRec
  activity_log : List (String × String)
  deriving DecidableEq, Repr

/-- A stable sort of students ascending by roll number, modelling both
SQLite's `ORDER BY roll_no` (BINARY collation is UTF-8 byte order, i.e.
code-point order) and Python's `sorted(..., key=roll_no)`.  `String`'s
order `s ≤ t` is exactly `s.data ≤ t.data`, and comparing through the
character data keeps the comparison kernel-computable. -/
def sortStudents (l : List Student) : List Student :=
  List.insertionSort (fun a b => a.roll_no.data ≤ b.roll_no.data) l

/-- A stable sort of rooms ascending by room number. -/
def sortRooms (l : List Room) : List Room :=
  List.insertionSort (fun a b => a.room_no.data ≤ b.room_no.data) l

/-- `database.get_all_students`: `SELECT * FROM students ORDER BY roll_no`. -/
def get_all_students (db : Store) : List Student :=
  sortStudents db.students

/-- `database.get_all_rooms`: `SELECT * FROM rooms ORDER BY room_no`. -/
def get_all_rooms (db : Store) : List Room :=
  sortRooms db.rooms

/-- `database.clear_allocations`: `DELETE FROM seating_allocations`. -/
def clear_allocations (db : Store) : Store :=
  { db with allocations := [] }

/-- `database.insert_allocation`: one `INSERT INTO seating_allocations`. -/
def insert_allocation (db : Store) (roll_no room_no : String) (row_num col_num : Nat)
    (seat_number method : String) : Store :=
  { db with allocations := db.allocations ++
      [{ roll_no := roll_no, room_no := room_no, row_num := row_num, col_num := col_num,
         seat_number := seat_number, allocation_method := method }] }

/-- `database.log_activity`: one `INSERT INTO activity_log`. -/
def log_activity (db : Store) (activity_type description : String) : Store :=
  { db with activity_log := db.activity_log ++ [(activity_type, description)] }

/-- The seat display label `f"{room_no}-R{row}C{col}"`. -/
def seatLabel (room_no : String) (row col : Nat) : String :=
  room_no ++ "-R" ++ toString row ++ "C" ++ toString col

/-- One element of the `room_seats` list built by `allocate_rollwise` /
`allocate_random` (1-based row and column). -/
structure Seat where
  room_no : String
  row : Nat
  col : Nat
  seat_number : String
  deriving DecidableEq, Repr

/-- The `room_seats` construction of `allocate_rollwise`/`allocate_random`:
for each room, `for row in range(1, rows+1): for col in range(1, columns+1)`. -/
def room_seats (rooms : List Room) : List Seat :=
  rooms.flatMap fun room =>
    (List.range' 1 room.rows).flatMap fun row =>
      (List.range' 1 room.columns).map fun col =>
        { room_no := room.room_no, row := row, col := col,
          seat_number := seatLabel room.room_no row col }

/-- The record written for one student/seat pair. -/
def seatRec (method : String) (student : Student) (seat : Seat) : AllocationRec :=
  { roll_no := student.roll_no, room_no := seat.room_no, row_num := seat.row,
    col_num := seat.col, seat_number := seat.seat_number, allocation_method := method }

/-- The insertion loop shared by rollwise and random:
`for i, student in enumerate(students): if i < len(room_seats): insert_allocation(...)`. -/
def allocLoop (method : String) (students : List Student) (seats : List Seat)
    (i : Nat) (db : Store) (allocated : Nat) : Store × Nat :=
  match students with
  | [] => (db, allocated)
  | student :: rest =>
    if h : i < seats.length then
      allocLoop method rest seats (i + 1)
        (insert_allocation db student.roll_no seats[i].room_no seats[i].row seats[i].col
          seats[i].seat_number method)
        (allocated + 1)
    else
      allocLoop method rest seats (i + 1) db allocated

/-- `allocator.allocate_rollwise`. -/
def allocate_rollwise (db : Store) : Bool × String × Store :=
  let db := clear_allocations db
  let students := get_all_students db
  let rooms := get_all_rooms db
  if students.isEmpty || rooms.isEmpty then
    (false, "No students or rooms available", db)
  else
    let students_sorted := sortStudents students
    let seats := room_seats rooms
    let sa := allocLoop "rollwise" students_sorted seats 0 db 0
    let db := log_activity sa.1 "allocation"
      ("Roll-wise allocation completed: " ++ toString sa.2 ++ " students allocated")
    (true, "Successfully allocated " ++ toString sa.2 ++ " students rollwise.", db)

/-- `allocator.allocate_random`, with `random.shuffle` modelled by the
explicit `shuffle` parameter applied to the fetched student list. -/
def allocate_random (shuffle : List Student → List Student) (db : Store) :
    Bool × String × Store :=
  let db := clear_allocations db
  let students := get_all_students db
  let rooms := get_all_rooms db
  if students.isEmpty || rooms.isEmpty then
    (false, "No students or rooms available", db)
  else
    let students_list := shuffle students
    let seats := room_seats rooms
    let sa := allocLoop "random" students_list seats 0 db 0
    let db := log_activity sa.1 "allocation"
      ("Random allocation completed: " ++ toString sa.2 ++ " students allocated")
    (true, "Successfully allocated " ++ toString sa.2 ++ " students randomly.", db)

/-- Insertion-ordered keys of Python's `defaultdict(list)` grouping: a code
is appended the first time it is seen. -/
def insertCode (acc : List String) (c : String) : List String :=
  if c ∈ acc then acc else acc ++ [c]

/-- `list(subject_groups.keys())`: subject codes in first-seen order. -/
def firstSeenCodes (students : List Student) : List String :=
  students.foldl (fun acc s => insertCode acc s.subject_code) []

/-- `subject_groups[code]`: the students with that subject code, in
encounter order. -/
def groupOf (students : List Student) (code : String) : List Student :=
  students.filter (fun s => s.subject_code == code)

/-- `zigzag_order[c % 2]` as a Boolean: does the zig-zag pattern designate
course A at 0-based row `r`, column `c`?  Even rows go A,B,A,B…; odd rows
go B,A,B,A…. -/
def zigzagCourseIsA (r c : Nat) : Bool :=
  if r % 2 == 0 then c % 2 == 0 else c % 2 != 0

/-- One seat position scanned by the zig-zag loop (0-based `r`, `c`). -/
structure SlotE where
  room_no : String
  r : Nat
  c : Nat
  deriving DecidableEq, Repr

/-- The seat positions scanned by `allocate_anti_cheating`:
`for room in rooms: for r in range(total_rows): for c in range(total_cols)`. -/
def roomSlots (rooms : List Room) : List SlotE :=
  rooms.flatMap fun room =>
    (List.range room.rows).flatMap fun r =>
      (List.range room.columns).map fun c =>
        { room_no := room.room_no, r := r, c := c }

/-- One placement made by the zig-zag scan, together with which group list
the student was taken from (`fromA`) and whether each group still had
unplaced members just before this seat was filled (`aAvail`, `bAvail`). -/
structure ZEntry where
  room_no : String
  r : Nat
  c : Nat
  student : Student
  fromA : Bool
  aAvail : Bool
  bAvail : Bool
  deriving DecidableEq, Repr

/-- The seat-filling step of the zig-zag loop: take from the designated
course if it still has students, otherwise fall back to course A first and
then course B; `none` when both are exhausted (`continue`). -/
def zigzagPick (desA : Bool) (as bs : List Student) :
    Option (Student × Bool × List Student × List Student) :=
  if desA then
    match as with
    | a :: as2 => some (a, true, as2, bs)
    | [] =>
      match bs with
      | b :: bs2 => some (b, false, as, bs2)
      | [] => none
  else
    match bs with
    | b :: bs2 => some (b, false, as, bs2)
    | [] =>
      match as with
      | a :: as2 => some (a, true, as2, bs)
      | [] => none

/-- The zig-zag scan over the seat positions, recording each placement. -/
def zigzagRun (slots : List SlotE) (as bs : List Student) : List ZEntry :=
  match slots with
  | [] => []
  | sl :: rest =>
    match zigzagPick (zigzagCourseIsA sl.r sl.c) as bs with
    | some (stu, fA, as2, bs2) =>
      { room_no := sl.room_no, r := sl.r, c := sl.c, student := stu,
        fromA := fA, aAvail := !as.isEmpty, bAvail := !bs.isEmpty } :: zigzagRun rest as2 bs2
    | none => zigzagRun rest as bs

/-- The placements made by one run of `allocate_anti_cheating`: group by
subject code, select the first two groups, shuffle each, scan the seats. -/
def antiCheatTrace (shufA shufB : List Student → List Student)
    (students : List Student) (rooms : List Room) : List ZEntry :=
  match firstSeenCodes students with
  | course_a :: course_b :: _ =>
    zigzagRun (roomSlots rooms) (shufA (groupOf students course_a))
      (shufB (groupOf students course_b))
  | _ => []

/-- The `insert_allocation` call made for one zig-zag placement
(1-based row `r+1`, column `c+1`, method tag `"anti-cheating"`). -/
def writeEntry (db : Store) (e : ZEntry) : Store :=
  insert_allocation db e.student.roll_no e.room_no (e.r + 1) (e.c + 1)
    (seatLabel e.room_no (e.r + 1) (e.c + 1)) "anti-cheating"

/-- `allocator.allocate_anti_cheating`, with the two `random.shuffle` calls
modelled by the explicit `shufA`/`shufB` parameters. -/
def allocate_anti_cheating (shufA shufB : List Student → List Student) (db : Store) :
    Bool × String × Store :=
  let db := clear_allocations db
  let students := get_all_students db
  let rooms := get_all_rooms db
  if students.isEmpty || rooms.isEmpty then
    (false, "No students or rooms available", db)
  else if (firstSeenCodes students).length < 2 then
    (false, "Need at least two different courses for anti-cheating allocation", db)
  else
    let entries := antiCheatTrace shufA shufB students rooms
    let db := entries.foldl writeEntry db
    let db := log_activity db "allocation"
      ("Anti-Cheating (Zig-Zag) allocation completed: " ++ toString entries.length ++
        " students allocated")
    (true, "Successfully allocated " ++ toString entries.length ++
      " students in Anti-Cheating Zig-Zag mode.", db)

/-! ### The insertion loop pairs the i-th student with the i-th seat -/

/-- The record written for one zig-zag placement. -/
def entryRec (e : ZEntry) : AllocationRec :=
  { roll_no := e.student.roll_no, room_no := e.room_no, row_num := e.r + 1,
    col_num := e.c + 1, seat_number := seatLabel e.room_no (e.r + 1) (e.c + 1),
    allocation_method := "anti-cheating" }

theorem allocLoop_fst (method : String) (students : List Student) :
    ∀ (seats : List Seat) (i : Nat) (db : Store) (allocated : Nat),
      (allocLoop method students seats i db allocated).1 =
        { db with allocations :=
            db.allocations ++ List.zipWith (seatRec method) students (seats.drop i) } := by
  induction students with
  | nil => intro seats i db allocated; simp [allocLoop]
  | cons student rest ih =>
    intro seats i db allocated
    rw [allocLoop]
    by_cases h : i < seats.length
    · rw [dif_pos h, ih, List.drop_eq_getElem_cons h, List.zipWith_cons_cons]
      simp [insert_allocation, seatRec]
    · rw [dif_neg h, ih]
      have h1 : seats.drop i = [] := by
        apply List.drop_eq_nil_of_le; omega
      have h2 : seats.drop (i + 1) = [] := by
        apply List.drop_eq_nil_of_le; omega
      simp [h1, h2]

theorem allocLoop_snd (method : String) (students : List Student) :
    ∀ (seats : List Seat) (i : Nat) (db : Store) (allocated : Nat),
      (allocLoop method students seats i db allocated).2 =
        allocated + min students.length (seats.length - i) := by
  induction students with
  | nil => intro seats i db allocated; simp [allocLoop]
  | cons student rest ih =>
    intro seats i db allocated
    rw [allocLoop]
    by_cases h : i < seats.length
    · rw [dif_pos h, ih]; simp only [List.length_cons]; omega
    · rw [dif_neg h, ih]; simp only [List.length_cons]; omega

/-! ### Characterization of the three operations -/

theorem sortStudents_perm (l : List Student) : List.Perm (sortStudents l) l :=
  List.perm_insertionSort _ l

theorem sortRooms_perm (l : List Room) : List.Perm (sortRooms l) l :=
  List.perm_insertionSort _ l

@[simp] theorem sortStudents_nil : sortStudents [] = [] := rfl

@[simp] theorem sortRooms_nil : sortRooms [] = [] := rfl

theorem sortStudents_ne_nil {l : List Student} (h : l ≠ []) : sortStudents l ≠ [] := by
  intro hc
  have := (sortStudents_perm l).length_eq
  rw [hc] at this
  exact h (List.eq_nil_of_length_eq_zero this.symm)

theorem sortRooms_ne_nil {l : List Room} (h : l ≠ []) : sortRooms l ≠ [] := by
  intro hc
  have := (sortRooms_perm l).length_eq
  rw [hc] at this
  exact h (List.eq_nil_of_length_eq_zero this.symm)

theorem allocate_rollwise_fail (db : Store) (h : db.students = [] ∨ db.rooms = []) :
    allocate_rollwise db = (false, "No students or rooms available", clear_allocations db) := by
  rcases h with h | h <;>
    simp [allocate_rollwise, get_all_students, get_all_rooms, clear_allocations, h]

theorem allocate_rollwise_success (db : Store) (hs : db.students ≠ []) (hr : db.rooms ≠ []) :
    (allocate_rollwise db).1 = true ∧
    (allocate_rollwise db).2.1 =
      "Successfully allocated " ++
        toString (min db.students.length (room_seats (sortRooms db.rooms)).length) ++
        " students rollwise." ∧
    (allocate_rollwise db).2.2.allocations =
      List.zipWith (seatRec "rollwise") (sortStudents (sortStudents db.students))
        (room_seats (sortRooms db.rooms)) := by
  have hs2 := sortStudents_ne_nil hs
  have hr2 := sortRooms_ne_nil hr
  have hlen : (sortStudents (sortStudents db.students)).length = db.students.length := by
    rw [(sortStudents_perm _).length_eq, (sortStudents_perm _).length_eq]
  simp only [allocate_rollwise, get_all_students, get_all_rooms, clear_allocations,
    allocLoop_fst, allocLoop_snd, log_activity]
  simp [hs2, hr2, hlen]

theorem allocate_random_fail (shuffle : List Student → List Student) (db : Store)
    (h : db.students = [] ∨ db.rooms = []) :
    allocate_random shuffle db =
      (false, "No students or rooms available", clear_allocations db) := by
  rcases h with h | h <;>
    simp [allocate_random, get_all_students, get_all_rooms, clear_allocations, h]

theorem allocate_random_success (shuffle : List Student → List Student) (db : Store)
    (hs : db.students ≠ []) (hr : db.rooms ≠ []) :
    (allocate_random shuffle db).1 = true ∧
    (allocate_random shuffle db).2.1 =
      "Successfully allocated " ++
        toString (min (shuffle (sortStudents db.students)).length
          (room_seats (sortRooms db.rooms)).length) ++
        " students randomly." ∧
    (allocate_random shuffle db).2.2.allocations =
      List.zipWith (seatRec "random") (shuffle (sortStudents db.students))
        (room_seats (sortRooms db.rooms)) := by
  have hs2 := sortStudents_ne_nil hs
  have hr2 := sortRooms_ne_nil hr
  simp only [allocate_random, get_all_students, get_all_rooms, clear_allocations,
    allocLoop_fst, allocLoop_snd, log_activity]
  simp [hs2, hr2]

theorem foldl_writeEntry (entries : List ZEntry) :
    ∀ db : Store, (entries.foldl writeEntry db).allocations =
      db.allocations ++ entries.map entryRec := by
  induction entries with
  | nil => intro db; simp
  | cons e rest ih =>
    intro db
    simp only [List.foldl_cons, List.map_cons, ih, writeEntry, insert_allocation, entryRec]
    simp

theorem allocate_anti_fail_empty (shufA shufB : List Student → List Student) (db : Store)
    (h : db.students = [] ∨ db.rooms = []) :
    allocate_anti_cheating shufA shufB db =
      (false, "No students or rooms available", clear_allocations db) := by
  rcases h with h | h <;>
    simp [allocate_anti_cheating, get_all_students, get_all_rooms, clear_allocations, h]

theorem allocate_anti_fail_groups (shufA shufB : List Student → List Student) (db : Store)
    (hs : db.students ≠ []) (hr : db.rooms ≠ [])
    (h2 : (firstSeenCodes (sortStudents db.students)).length < 2) :
    allocate_anti_cheating shufA shufB db =
      (false, "Need at least two different courses for anti-cheating allocation",
        clear_allocations db) := by
  have hs2 := sortStudents_ne_nil hs
  have hr2 := sortRooms_ne_nil hr
  simp only [allocate_anti_cheating, get_all_students, get_all_rooms, clear_allocations]
  simp [hs2, hr2, h2]

theorem allocate_anti_success (shufA shufB : List Student → List Student) (db : Store)
    (hs : db.students ≠ []) (hr : db.rooms ≠ [])
    (h2 : 2 ≤ (firstSeenCodes (sortStudents db.students)).length) :
    (allocate_anti_cheating shufA shufB db).1 = true ∧
    (allocate_anti_cheating shufA shufB db).2.1 =
      "Successfully allocated " ++
        toString (antiCheatTrace shufA shufB (sortStudents db.students)
          (sortRooms db.rooms)).length ++
        " students in Anti-Cheating Zig-Zag mode." ∧
    (allocate_anti_cheating shufA shufB db).2.2.allocations =
      (antiCheatTrace shufA shufB (sortStudents db.students)
        (sortRooms db.rooms)).map entryRec := by
  have hs2 := sortStudents_ne_nil hs
  have hr2 := sortRooms_ne_nil hr
  have h2' : ¬ (firstSeenCodes (sortStudents db.students)).length < 2 := by omega
  simp only [allocate_anti_cheating, get_all_students, get_all_rooms, clear_allocations,
    log_activity]
  simp [hs2, hr2, h2', foldl_writeEntry]

/-! ### Zig-zag scan lemmas -/

/-- The (room, row, column) key of a scanned seat position. -/
def skey (sl : SlotE) : String × Nat × Nat := (sl.room_no, sl.r, sl.c)

/-- The (room, row, column) key of a placement. -/
def ekey (e : ZEntry) : String × Nat × Nat := (e.room_no, e.r, e.c)

theorem zigzagPick_eq_none {desA : Bool} {as bs : List Student} :
    zigzagPick desA as bs = none ↔ as = [] ∧ bs = [] := by
  cases desA <;> cases as <;> cases bs <;> simp [zigzagPick]

theorem zigzagPick_some {desA : Bool} {as bs as2 bs2 : List Student} {stu : Student} {fA : Bool}
    (h : zigzagPick desA as bs = some (stu, fA, as2, bs2)) :
    (fA = true ∧ as = stu :: as2 ∧ bs2 = bs) ∨ (fA = false ∧ bs = stu :: bs2 ∧ as2 = as) := by
  cases desA <;> cases as <;> cases bs <;> simp [zigzagPick] at h <;> simp_all

theorem zigzagRun_cons_none {sl : SlotE} {rest : List SlotE} {as bs : List Student}
    (hp : zigzagPick (zigzagCourseIsA sl.r sl.c) as bs = none) :
    zigzagRun (sl :: rest) as bs = zigzagRun rest as bs := by
  rw [zigzagRun, hp]

theorem zigzagRun_cons_some {sl : SlotE} {rest : List SlotE} {as bs as2 bs2 : List Student}
    {stu : Student} {fA : Bool}
    (hp : zigzagPick (zigzagCourseIsA sl.r sl.c) as bs = some (stu, fA, as2, bs2)) :
    zigzagRun (sl :: rest) as bs =
      { room_no := sl.room_no, r := sl.r, c := sl.c, student := stu,
        fromA := fA, aAvail := !as.isEmpty, bAvail := !bs.isEmpty } :: zigzagRun rest as2 bs2 := by
  rw [zigzagRun, hp]

theorem zigzagRun_aAvail_false (slots : List SlotE) :
    ∀ bs : List Student, ∀ e ∈ zigzagRun slots [] bs, e.aAvail = false := by
  induction slots with
  | nil => intro bs e he; simp [zigzagRun] at he
  | cons sl rest ih =>
    intro bs e he
    cases hp : zigzagPick (zigzagCourseIsA sl.r sl.c) [] bs with
    | none => rw [zigzagRun_cons_none hp] at he; exact ih bs e he
    | some out =>
      obtain ⟨stu, fA, as2, bs2⟩ := out
      have has2 : as2 = [] := by
        rcases zigzagPick_some hp with ⟨_, hcons, _⟩ | ⟨_, _, h2⟩
        · exact absurd hcons.symm (List.cons_ne_nil _ _)
        · exact h2
      rw [zigzagRun_cons_some hp] at he
      rcases List.mem_cons.mp he with rfl | he
      · simp
      · subst has2; exact ih bs2 e he

theorem zigzagRun_bAvail_false (slots : List SlotE) :
    ∀ as : List Student, ∀ e ∈ zigzagRun slots as [], e.bAvail = false := by
  induction slots with
  | nil => intro as e he; simp [zigzagRun] at he
  | cons sl rest ih =>
    intro as e he
    cases hp : zigzagPick (zigzagCourseIsA sl.r sl.c) as [] with
    | none => rw [zigzagRun_cons_none hp] at he; exact ih as e he
    | some out =>
      obtain ⟨stu, fA, as2, bs2⟩ := out
      have hbs2 : bs2 = [] := by
        rcases zigzagPick_some hp with ⟨_, _, h2⟩ | ⟨_, hcons, _⟩
        · exact h2
        · exact absurd hcons.symm (List.cons_ne_nil _ _)
      rw [zigzagRun_cons_some hp] at he
      rcases List.mem_cons.mp he with rfl | he
      · simp
      · subst hbs2; exact ih as2 e he

/-- Availability of each group is monotonically non-increasing along the scan:
a later placement that still sees unplaced members of a group implies every
earlier placement did too. -/
theorem zigzagRun_avail_pairwise (slots : List SlotE) :
    ∀ as bs : List Student,
      (zigzagRun slots as bs).Pairwise
        (fun e1 e2 => (e2.aAvail = true → e1.aAvail = true) ∧
          (e2.bAvail = true → e1.bAvail = true)) := by
  induction slots with
  | nil => intro as bs; simp [zigzagRun]
  | cons sl rest ih =>
    intro as bs
    cases hp : zigzagPick (zigzagCourseIsA sl.r sl.c) as bs with
    | none => rw [zigzagRun_cons_none hp]; exact ih as bs
    | some out =>
      obtain ⟨stu, fA, as2, bs2⟩ := out
      rw [zigzagRun_cons_some hp]
      refine List.Pairwise.cons ?_ (ih as2 bs2)
      intro e' he'
      constructor
      · intro ha'
        by_contra hc
        have hanil : as = [] := by
          cases as with
          | nil => rfl
          | cons x xs => simp at hc
        subst hanil
        have has2 : as2 = [] := by
          rcases zigzagPick_some hp with ⟨_, hcons, _⟩ | ⟨_, _, h2⟩
          · exact absurd hcons.symm (List.cons_ne_nil _ _)
          · exact h2
        subst has2
        exact absurd ha' (by simp [zigzagRun_aAvail_false rest bs2 e' he'])
      · intro hb'
        by_contra hc
        have hbnil : bs = [] := by
          cases bs with
          | nil => rfl
          | cons x xs => simp at hc
        subst hbnil
        have hbs2 : bs2 = [] := by
          rcases zigzagPick_some hp with ⟨_, _, h2⟩ | ⟨_, hcons, _⟩
          · exact h2
          · exact absurd hcons.symm (List.cons_ne_nil _ _)
        subst hbs2
        exact absurd hb' (by simp [zigzagRun_bAvail_false rest as2 e' he'])

/-- Which group a placement drew from, as a function of the zig-zag
designation and the availability of the two groups at that moment. -/
theorem zigzagRun_fromA (slots : List SlotE) :
    ∀ as bs : List Student, ∀ e ∈ zigzagRun slots as bs,
      e.fromA = (if zigzagCourseIsA e.r e.c then e.aAvail else (e.aAvail && !e.bAvail)) := by
  induction slots with
  | nil => intro as bs e he; simp [zigzagRun] at he
  | cons sl rest ih =>
    intro as bs e he
    cases hp : zigzagPick (zigzagCourseIsA sl.r sl.c) as bs with
    | none => rw [zigzagRun_cons_none hp] at he; exact ih as bs e he
    | some out =>
      obtain ⟨stu, fA, as2, bs2⟩ := out
      rw [zigzagRun_cons_some hp] at he
      rcases List.mem_cons.mp he with rfl | he
      · cases hd : zigzagCourseIsA sl.r sl.c with
        | true =>
          rw [hd] at hp
          cases as with
          | cons a as' =>
            simp [zigzagPick] at hp
            obtain ⟨-, rfl, -, -⟩ := hp
            simp [hd]
          | nil =>
            cases bs with
            | cons b bs' =>
              simp [zigzagPick] at hp
              obtain ⟨-, rfl, -, -⟩ := hp
              simp [hd]
            | nil => simp [zigzagPick] at hp
        | false =>
          rw [hd] at hp
          cases bs with
          | cons b bs' =>
            simp [zigzagPick] at hp
            obtain ⟨-, rfl, -, -⟩ := hp
            simp [hd]
          | nil =>
            cases as with
            | cons a as' =>
              simp [zigzagPick] at hp
              obtain ⟨-, rfl, -, -⟩ := hp
              simp [hd]
            | nil => simp [zigzagPick] at hp
      · exact ih as2 bs2 e he

/-- Every placed student comes from one of the two selected group lists,
according to the `fromA` flag. -/
theorem zigzagRun_mem_student (slots : List SlotE) :
    ∀ as bs : List Student, ∀ e ∈ zigzagRun slots as bs,
      (e.fromA = true → e.student ∈ as) ∧ (e.fromA = false → e.student ∈ bs) := by
  induction slots with
  | nil => intro as bs e he; simp [zigzagRun] at he
  | cons sl rest ih =>
    intro as bs e he
    cases hp : zigzagPick (zigzagCourseIsA sl.r sl.c) as bs with
    | none => rw [zigzagRun_cons_none hp] at he; exact ih as bs e he
    | some out =>
      obtain ⟨stu, fA, as2, bs2⟩ := out
      rw [zigzagRun_cons_some hp] at he
      rcases List.mem_cons.mp he with rfl | he
      · rcases zigzagPick_some hp with ⟨hfa, hcons, _⟩ | ⟨hfa, hcons, _⟩
        · constructor
          · intro _; rw [hcons]; exact List.mem_cons_self _ _
          · intro hfalse; rw [hfa] at hfalse; cases hfalse
        · constructor
          · intro htrue; rw [hfa] at htrue; cases htrue
          · intro _; rw [hcons]; exact List.mem_cons_self _ _
      · have := ih as2 bs2 e he
        rcases zigzagPick_some hp with ⟨_, hcons, hbs⟩ | ⟨_, hcons, has⟩
        · exact ⟨fun h => by rw [hcons]; exact List.mem_cons_of_mem _ (this.1 h),
            fun h => by rw [← hbs]; exact this.2 h⟩
        · exact ⟨fun h => by rw [← has]; exact this.1 h,
            fun h => by rw [hcons]; exact List.mem_cons_of_mem _ (this.2 h)⟩

theorem zigzagRun_student_mem (slots : List SlotE) (as bs : List Student)
    (e : ZEntry) (he : e ∈ zigzagRun slots as bs) : e.student ∈ as ++ bs := by
  have h := zigzagRun_mem_student slots as bs e he
  cases hfa : e.fromA with
  | true => exact List.mem_append_left _ (h.1 hfa)
  | false => exact List.mem_append_right _ (h.2 hfa)

/-- The scan places exactly `min (|A| + |B|)` (number of seats) students. -/
theorem zigzagRun_length (slots : List SlotE) :
    ∀ as bs : List Student,
      (zigzagRun slots as bs).length = min (as.length + bs.length) slots.length := by
  induction slots with
  | nil => intro as bs; simp [zigzagRun]
  | cons sl rest ih =>
    intro as bs
    cases hp : zigzagPick (zigzagCourseIsA sl.r sl.c) as bs with
    | none =>
      rw [zigzagRun_cons_none hp, ih]
      obtain ⟨ha, hb⟩ := zigzagPick_eq_none.mp hp
      subst ha; subst hb
      simp
    | some out =>
      obtain ⟨stu, fA, as2, bs2⟩ := out
      rw [zigzagRun_cons_some hp]
      have hlen : as.length + bs.length = as2.length + bs2.length + 1 := by
        rcases zigzagPick_some hp with ⟨_, hcons, hbs⟩ | ⟨_, hcons, has⟩
        · rw [hcons, ← hbs]; simp; omega
        · rw [hcons, ← has]; simp; omega
      simp only [List.length_cons, ih as2 bs2, hlen]
      omega

/-- The keys of the placements form a subsequence of the keys of the
scanned seat positions. -/
theorem zigzagRun_keys_sublist (slots : List SlotE) :
    ∀ as bs : List Student,
      ((zigzagRun slots as bs).map ekey).Sublist (slots.map skey) := by
  induction slots with
  | nil => intro as bs; simp [zigzagRun]
  | cons sl rest ih =>
    intro as bs
    cases hp : zigzagPick (zigzagCourseIsA sl.r sl.c) as bs with
    | none =>
      rw [zigzagRun_cons_none hp]
      exact List.Sublist.cons _ (ih as bs)
    | some out =>
      obtain ⟨stu, fA, as2, bs2⟩ := out
      rw [zigzagRun_cons_some hp]
      simp only [List.map_cons]
      exact List.Sublist.cons₂ _ (ih as2 bs2)

/-- No student is placed twice: the scan consumes the two group lists
without repetition (stated through an arbitrary key function `f`). -/
theorem zigzagRun_map_nodup {κ : Type} (f : Student → κ) (slots : List SlotE) :
    ∀ as bs : List Student, ((as ++ bs).map f).Nodup →
      ((zigzagRun slots as bs).map (fun e => f e.student)).Nodup := by
  induction slots with
  | nil => intro as bs h; simp [zigzagRun]
  | cons sl rest ih =>
    intro as bs h
    cases hp : zigzagPick (zigzagCourseIsA sl.r sl.c) as bs with
    | none => rw [zigzagRun_cons_none hp]; exact ih as bs h
    | some out =>
      obtain ⟨stu, fA, as2, bs2⟩ := out
      rw [zigzagRun_cons_some hp]
      simp only [List.map_cons, List.nodup_cons]
      have hkey : f stu ∉ ((as2 ++ bs2).map f) ∧ ((as2 ++ bs2).map f).Nodup := by
        rcases zigzagPick_some hp with ⟨_, hcons, hbs⟩ | ⟨_, hcons, has⟩
        · rw [hcons, ← hbs] at h
          simp only [List.cons_append, List.map_cons, List.nodup_cons] at h
          exact h
        · rw [hcons, ← has] at h
          have h2 : ((as2 ++ stu :: bs2).map f).Nodup := h
          rw [List.map_append, List.map_cons, List.nodup_middle, ← List.map_append] at h2
          simp only [List.nodup_cons] at h2
          exact h2
      constructor
      · intro hmem
        obtain ⟨e, he, hfe⟩ := List.mem_map.mp hmem
        exact hkey.1 (hfe ▸ List.mem_map_of_mem f (zigzagRun_student_mem rest as2 bs2 e he))
      · exact ih as2 bs2 hkey.2

/-! ### Structure of the seat enumerations -/

/-- Scan order on seat keys: an earlier seat position is in a different
room, or in an earlier row, or earlier in the same row. -/
def slotBefore (k1 k2 : String × Nat × Nat) : Prop :=
  k1.1 ≠ k2.1 ∨ (k1.1 = k2.1 ∧ (k1.2.1 < k2.2.1 ∨ (k1.2.1 = k2.2.1 ∧ k1.2.2 < k2.2.2)))

/-- The keys contributed by one room to the zig-zag scan (0-based). -/
def roomKeys (room : Room) : List (String × Nat × Nat) :=
  (List.range room.rows).flatMap fun r =>
    (List.range room.columns).map fun c => (room.room_no, r, c)

/-- The keys contributed by one room to `room_seats` (1-based). -/
def roomKeys1 (room : Room) : List (String × Nat × Nat) :=
  (List.range' 1 room.rows).flatMap fun row =>
    (List.range' 1 room.columns).map fun col => (room.room_no, row, col)

/-- The (room, row, column) key of a seat of `room_seats`. -/
def seatKey (st : Seat) : String × Nat × Nat := (st.room_no, st.row, st.col)

theorem roomSlots_map_skey (rooms : List Room) :
    (roomSlots rooms).map skey = rooms.flatMap (fun room => roomKeys room) := by
  simp [roomSlots, roomKeys, skey, List.map_flatMap, Function.comp_def]

theorem room_seats_map_seatKey (rooms : List Room) :
    (room_seats rooms).map seatKey = rooms.flatMap (fun room => roomKeys1 room) := by
  simp [room_seats, roomKeys1, seatKey, List.map_flatMap, Function.comp_def]

theorem roomKeys_mem {room : Room} {x : String × Nat × Nat} (hx : x ∈ roomKeys room) :
    x.1 = room.room_no := by
  simp only [roomKeys, List.mem_flatMap, List.mem_map, List.mem_range] at hx
  obtain ⟨r, -, c, -, rfl⟩ := hx
  rfl

theorem roomKeys1_mem {room : Room} {x : String × Nat × Nat} (hx : x ∈ roomKeys1 room) :
    x.1 = room.room_no := by
  simp only [roomKeys1, List.mem_flatMap, List.mem_map, List.mem_range'_1] at hx
  obtain ⟨r, -, c, -, rfl⟩ := hx
  rfl

theorem roomKeys_pairwise (room : Room) : (roomKeys room).Pairwise slotBefore := by
  rw [roomKeys, List.pairwise_flatMap]
  constructor
  · intro r _
    rw [List.pairwise_map]
    refine (List.pairwise_lt_range _).imp ?_
    intro c1 c2 hlt
    exact Or.inr ⟨rfl, Or.inr ⟨rfl, hlt⟩⟩
  · refine (List.pairwise_lt_range _).imp ?_
    intro r1 r2 hlt x hx y hy
    simp only [List.mem_map, List.mem_range] at hx hy
    obtain ⟨c1, -, rfl⟩ := hx
    obtain ⟨c2, -, rfl⟩ := hy
    exact Or.inr ⟨rfl, Or.inl hlt⟩

theorem roomKeys1_pairwise (room : Room) : (roomKeys1 room).Pairwise slotBefore := by
  rw [roomKeys1, List.pairwise_flatMap]
  constructor
  · intro r _
    rw [List.pairwise_map]
    refine (List.pairwise_lt_range' _ _).imp ?_
    intro c1 c2 hlt
    exact Or.inr ⟨rfl, Or.inr ⟨rfl, hlt⟩⟩
  · refine (List.pairwise_lt_range' _ _).imp ?_
    intro r1 r2 hlt x hx y hy
    simp only [List.mem_map, List.mem_range'_1] at hx hy
    obtain ⟨c1, -, rfl⟩ := hx
    obtain ⟨c2, -, rfl⟩ := hy
    exact Or.inr ⟨rfl, Or.inl hlt⟩

theorem flatMap_keys_pairwise {rooms : List Room}
    (keys : Room → List (String × Nat × Nat))
    (hpair : ∀ room, (keys room).Pairwise slotBefore)
    (hmem : ∀ {room : Room} {x : String × Nat × Nat}, x ∈ keys room → x.1 = room.room_no)
    (h : (rooms.map Room.room_no).Nodup) :
    (rooms.flatMap keys).Pairwise slotBefore := by
  rw [List.pairwise_flatMap]
  refine ⟨fun room _ => hpair room, ?_⟩
  have h2 : rooms.Pairwise (fun a b => a.room_no ≠ b.room_no) := List.pairwise_map.mp h
  refine h2.imp ?_
  intro a b hab x hx y hy
  exact Or.inl (by rw [hmem hx, hmem hy]; exact hab)

theorem roomSlots_keys_pairwise {rooms : List Room} (h : (rooms.map Room.room_no).Nodup) :
    ((roomSlots rooms).map skey).Pairwise slotBefore := by
  rw [roomSlots_map_skey]
  exact flatMap_keys_pairwise roomKeys roomKeys_pairwise (fun hx => roomKeys_mem hx) h

theorem room_seats_keys_pairwise {rooms : List Room} (h : (rooms.map Room.room_no).Nodup) :
    ((room_seats rooms).map seatKey).Pairwise slotBefore := by
  rw [room_seats_map_seatKey]
  exact flatMap_keys_pairwise roomKeys1 roomKeys1_pairwise (fun hx => roomKeys1_mem hx) h

theorem slotBefore_ne {k1 k2 : String × Nat × Nat} (h : slotBefore k1 k2) : k1 ≠ k2 := by
  rcases h with h | ⟨he, h | ⟨he2, h⟩⟩ <;> intro hc <;> subst hc
  · exact h rfl
  · omega
  · omega

theorem roomSlots_keys_nodup {rooms : List Room} (h : (rooms.map Room.room_no).Nodup) :
    ((roomSlots rooms).map skey).Nodup :=
  (roomSlots_keys_pairwise h).imp slotBefore_ne

theorem room_seats_keys_nodup {rooms : List Room} (h : (rooms.map Room.room_no).Nodup) :
    ((room_seats rooms).map seatKey).Nodup :=
  (room_seats_keys_pairwise h).imp slotBefore_ne

/-! ### Projections of the zipped records -/

theorem map_zipWith_left {α β γ δ : Type} (f : α → β → γ) (g : γ → δ) (k : α → δ)
    (hfk : ∀ a b, g (f a b) = k a) :
    ∀ (l1 : List α) (l2 : List β),
      (List.zipWith f l1 l2).map g = (l1.take l2.length).map k := by
  intro l1
  induction l1 with
  | nil => intro l2; simp
  | cons a l1 ih =>
    intro l2
    cases l2 with
    | nil => simp
    | cons b l2 => simp [hfk, ih]

theorem map_zipWith_right {α β γ δ : Type} (f : α → β → γ) (g : γ → δ) (k : β → δ)
    (hfk : ∀ a b, g (f a b) = k b) :
    ∀ (l1 : List α) (l2 : List β),
      (List.zipWith f l1 l2).map g = (l2.take l1.length).map k := by
  intro l1
  induction l1 with
  | nil => intro l2; simp
  | cons a l1 ih =>
    intro l2
    cases l2 with
    | nil => simp
    | cons b l2 => simp [hfk, ih]

/-! ### Subject-code grouping -/

theorem insertCode_mem {acc : List String} {c x : String} :
    x ∈ insertCode acc c ↔ x ∈ acc ∨ x = c := by
  unfold insertCode
  split
  · next hc =>
    constructor
    · exact Or.inl
    · rintro (h | rfl)
      · exact h
      · exact hc
  · simp

theorem insertCode_nodup {acc : List String} (c : String) (h : acc.Nodup) :
    (insertCode acc c).Nodup := by
  unfold insertCode
  split
  · exact h
  · next hc => simp [List.nodup_append, h, hc]

theorem foldl_insertCode_nodup (students : List Student) :
    ∀ acc : List String, acc.Nodup →
      (students.foldl (fun acc s => insertCode acc s.subject_code) acc).Nodup := by
  induction students with
  | nil => intro acc h; exact h
  | cons s rest ih => intro acc h; exact ih _ (insertCode_nodup _ h)

theorem firstSeenCodes_nodup (students : List Student) : (firstSeenCodes students).Nodup :=
  foldl_insertCode_nodup students [] (by simp)

theorem foldl_insertCode_mem (students : List Student) :
    ∀ (acc : List String) (x : String),
      x ∈ students.foldl (fun acc s => insertCode acc s.subject_code) acc ↔
        x ∈ acc ∨ ∃ s ∈ students, s.subject_code = x := by
  induction students with
  | nil => intro acc x; simp
  | cons s rest ih =>
    intro acc x
    rw [List.foldl_cons, ih, insertCode_mem]
    constructor
    · rintro ((h | rfl) | ⟨s', hs', rfl⟩)
      · exact Or.inl h
      · exact Or.inr ⟨s, List.mem_cons_self _ _, rfl⟩
      · exact Or.inr ⟨s', List.mem_cons_of_mem _ hs', rfl⟩
    · rintro (h | ⟨s', hs', rfl⟩)
      · exact Or.inl (Or.inl h)
      · rcases List.mem_cons.mp hs' with rfl | hs'
        · exact Or.inl (Or.inr rfl)
        · exact Or.inr ⟨s', hs', rfl⟩

theorem firstSeenCodes_mem {students : List Student} {x : String} :
    x ∈ firstSeenCodes students ↔ ∃ s ∈ students, s.subject_code = x := by
  rw [firstSeenCodes, foldl_insertCode_mem]
  simp

theorem foldl_insertCode_const (c : String) :
    ∀ l : List Student, (∀ s ∈ l, s.subject_code = c) →
      l.foldl (fun acc s => insertCode acc s.subject_code) [c] = [c] := by
  intro l
  induction l with
  | nil => intro _; rfl
  | cons s rest ih =>
    intro h
    rw [List.foldl_cons]
    have hc : s.subject_code = c := h s (List.mem_cons_self _ _)
    have : insertCode [c] s.subject_code = [c] := by simp [insertCode, hc]
    rw [this]
    exact ih fun x hx => h x (List.mem_cons_of_mem _ hx)

theorem firstSeenCodes_all_eq {students : List Student} {c : String}
    (hne : students ≠ []) (hall : ∀ s ∈ students, s.subject_code = c) :
    firstSeenCodes students = [c] := by
  cases students with
  | nil => exact absurd rfl hne
  | cons s rest =>
    rw [firstSeenCodes, List.foldl_cons]
    have hc : s.subject_code = c := hall s (List.mem_cons_self _ _)
    have h0 : insertCode [] s.subject_code = [c] := by simp [insertCode, hc]
    rw [h0]
    exact foldl_insertCode_const c rest fun x hx => hall x (List.mem_cons_of_mem _ hx)

theorem groupOf_code {students : List Student} {code : String} :
    ∀ s ∈ groupOf students code, s.subject_code = code := by
  intro s hs
  simp only [groupOf, List.mem_filter, beq_iff_eq] at hs
  exact hs.2

theorem groupOf_sublist (students : List Student) (code : String) :
    (groupOf students code).Sublist students :=
  List.filter_sublist _

/-! ### Parity of the zig-zag designation, and group disjointness -/

theorem zigzagCourseIsA_succ (r c : Nat) :
    zigzagCourseIsA r (c + 1) = !zigzagCourseIsA r c := by
  unfold zigzagCourseIsA
  rcases Nat.mod_two_eq_zero_or_one c with hc | hc
  · have hc1 : (c + 1) % 2 = 1 := by omega
    cases hr : r % 2 == 0 <;> simp [hc, hc1, hr]
  · have hc1 : (c + 1) % 2 = 0 := by omega
    cases hr : r % 2 == 0 <;> simp [hc, hc1, hr]

theorem zigzagCourseIsA_zero (r : Nat) :
    zigzagCourseIsA r 0 = decide (r % 2 = 0) := by
  unfold zigzagCourseIsA
  rcases Nat.mod_two_eq_zero_or_one r with hr | hr <;> simp [hr]

/-- With distinct codes `a ≠ b` and no duplicate roll numbers among the
students, the concatenation of the two subject groups has no duplicate
roll numbers either. -/
theorem groups_roll_nodup {students : List Student} {a b : String} (hab : a ≠ b)
    (h : (students.map Student.roll_no).Nodup) :
    ((groupOf students a ++ groupOf students b).map Student.roll_no).Nodup := by
  rw [List.map_append, List.nodup_append]
  refine ⟨?_, ?_, ?_⟩
  · exact List.Nodup.sublist ((groupOf_sublist students a).map _) h
  · exact List.Nodup.sublist ((groupOf_sublist students b).map _) h
  · intro x hx1 hx2
    obtain ⟨s1, hs1, rfl⟩ := List.mem_map.mp hx1
    obtain ⟨s2, hs2, heq⟩ := List.mem_map.mp hx2
    have hm1 : s1 ∈ students := (groupOf_sublist students a).mem hs1
    have hm2 : s2 ∈ students := (groupOf_sublist students b).mem hs2
    have : s2 = s1 := List.inj_on_of_nodup_map h hm2 hm1 heq
    subst this
    exact hab (groupOf_code s2 hs1 ▸ groupOf_code s2 hs2)

theorem shiftKey_inj :
    Function.Injective (fun k : String × Nat × Nat => (k.1, k.2.1 + 1, k.2.2 + 1)) := by
  intro k1 k2 h
  obtain ⟨a1, b1, c1⟩ := k1
  obtain ⟨a2, b2, c2⟩ := k2
  simp only [Prod.mk.injEq] at h ⊢
  obtain ⟨h1, h2, h3⟩ := h
  exact ⟨h1, by omega, by omega⟩

/-! ### Sample data for the concrete instantiations -/

/-- A sample student row. -/
def wStudent (roll code : String) : Student :=
  { roll_no := roll, name := "Name", course := "BCA", semester := "3",
    email := "mail", subject_code := code }

/-- A sample room row. -/
def wRoom (no : String) (rws cls : Nat) : Room :=
  { room_no := no, building := "Main", rows := rws, columns := cls, capacity := rws * cls }

/-- A leftover allocation record from a previous run. -/
def wOldRec : AllocationRec :=
  { roll_no := "OLD", room_no := "999", row_num := 1, col_num := 1,
    seat_number := "999-R1C1", allocation_method := "rollwise" }

/-- The spec §8 example: rooms 101 (2 rows × 2 cols) and 102 (1 row × 2 cols),
students S1..S5, stored out of order and with a stale allocation present. -/
def dbExample : Store :=
  { students := [wStudent "S3" "X", wStudent "S1" "X", wStudent "S5" "X",
      wStudent "S2" "X", wStudent "S4" "X"],
    rooms := [wRoom "102" 1 2, wRoom "101" 2 2],
    allocations := [wOldRec], activity_log := [] }

/-- The spec §8 example extended with a sixth student S6. -/
def dbExampleSix : Store :=
  { dbExample with students := wStudent "S6" "X" :: dbExample.students }

/-- A store with no students but one room and a stale allocation. -/
def dbNoStudents : Store :=
  { students := [], rooms := [wRoom "101" 2 2], allocations := [wOldRec], activity_log := [] }

/-- A store where all students share one subject code. -/
def dbOneGroup : Store :=
  { students := [wStudent "S1" "MATH", wStudent "S2" "MATH", wStudent "S3" "MATH"],
    rooms := [wRoom "101" 2 2], allocations := [wOldRec], activity_log := [] }

/-- Same students and rooms as `dbExample` but different stale state. -/
def dbExampleAlt : Store :=
  { dbExample with allocations := [], activity_log := [("upload", "x")] }

/-! ### Claims -/

/-- C3: each of the three operations deletes all previously persisted
allocation records before checking its preconditions, so when the student
set or the room set is empty it fails fast with the generic message and
the store is left holding zero allocation records. -/
theorem claim_clear_before_check (shuffle shufA shufB : List Student → List Student)
    (db : Store) (h : db.students = [] ∨ db.rooms = []) :
    allocate_rollwise db = (false, "No students or rooms available", clear_allocations db) ∧
    allocate_random shuffle db =
      (false, "No students or rooms available", clear_allocations db) ∧
    allocate_anti_cheating shufA shufB db =
      (false, "No students or rooms available", clear_allocations db) ∧
    (clear_allocations db).allocations = [] :=
  ⟨allocate_rollwise_fail db h, allocate_random_fail shuffle db h,
    allocate_anti_fail_empty shufA shufB db h, rfl⟩

theorem claim_clear_before_check_witness :
    allocate_rollwise dbNoStudents =
      (false, "No students or rooms available", clear_allocations dbNoStudents) ∧
    allocate_random id dbNoStudents =
      (false, "No students or rooms available", clear_allocations dbNoStudents) ∧
    allocate_anti_cheating id id dbNoStudents =
      (false, "No students or rooms available", clear_allocations dbNoStudents) ∧
    (clear_allocations dbNoStudents).allocations = [] :=
  claim_clear_before_check id id id dbNoStudents (Or.inl rfl)

/-- C9: `allocate_rollwise` is deterministic: on stores with identical
student and room sets (whatever the rest of the state), it returns the
same success flag, the same message, and the same allocation records. -/
theorem claim_rollwise_deterministic (db1 db2 : Store)
    (hs : db1.students = db2.students) (hr : db1.rooms = db2.rooms) :
    (allocate_rollwise db1).1 = (allocate_rollwise db2).1 ∧
    (allocate_rollwise db1).2.1 = (allocate_rollwise db2).2.1 ∧
    (allocate_rollwise db1).2.2.allocations = (allocate_rollwise db2).2.2.allocations := by
  by_cases he : db1.students = [] ∨ db1.rooms = []
  · have he2 : db2.students = [] ∨ db2.rooms = [] := by rw [← hs, ← hr]; exact he
    rw [allocate_rollwise_fail db1 he, allocate_rollwise_fail db2 he2]
    exact ⟨rfl, rfl, rfl⟩
  · push_neg at he
    obtain ⟨hs1, hr1⟩ := he
    have hs2 : db2.students ≠ [] := by rw [← hs]; exact hs1
    have hr2 : db2.rooms ≠ [] := by rw [← hr]; exact hr1
    have h1 := allocate_rollwise_success db1 hs1 hr1
    have h2 := allocate_rollwise_success db2 hs2 hr2
    refine ⟨by rw [h1.1, h2.1], ?_, ?_⟩
    · rw [h1.2.1, h2.2.1, hs, hr]
    · rw [h1.2.2, h2.2.2, hs, hr]

theorem claim_rollwise_deterministic_witness :
    (allocate_rollwise dbExample).1 = (allocate_rollwise dbExampleAlt).1 ∧
    (allocate_rollwise dbExample).2.1 = (allocate_rollwise dbExampleAlt).2.1 ∧
    (allocate_rollwise dbExample).2.2.allocations =
      (allocate_rollwise dbExampleAlt).2.2.allocations :=
  claim_rollwise_deterministic dbExample dbExampleAlt rfl rfl

/-- C5: with nonempty students and rooms but all students sharing a single
subject code, `allocate_anti_cheating` returns failure with the explicit
message and writes no allocation records beyond the initial clear. -/
theorem claim_anti_single_group_fails (shufA shufB : List Student → List Student)
    (db : Store) (c : String) (hs : db.students ≠ []) (hr : db.rooms ≠ [])
    (hall : ∀ s ∈ db.students, s.subject_code = c) :
    allocate_anti_cheating shufA shufB db =
      (false, "Need at least two different courses for anti-cheating allocation",
        clear_allocations db) ∧
    (allocate_anti_cheating shufA shufB db).2.2.allocations = [] := by
  have hs2 := sortStudents_ne_nil hs
  have hall2 : ∀ s ∈ sortStudents db.students, s.subject_code = c := fun s hsm =>
    hall s ((sortStudents_perm _).mem_iff.mp hsm)
  have hcodes : firstSeenCodes (sortStudents db.students) = [c] :=
    firstSeenCodes_all_eq hs2 hall2
  have hlen : (firstSeenCodes (sortStudents db.students)).length < 2 := by
    rw [hcodes]; simp
  have heq := allocate_anti_fail_groups shufA shufB db hs hr hlen
  exact ⟨heq, by rw [heq]; rfl⟩

theorem claim_anti_single_group_fails_witness :
    allocate_anti_cheating id id dbOneGroup =
      (false, "Need at least two different courses for anti-cheating allocation",
        clear_allocations dbOneGroup) ∧
    (allocate_anti_cheating id id dbOneGroup).2.2.allocations = [] :=
  claim_anti_single_group_fails id id dbOneGroup "MATH"
    (by decide) (by decide) (by decide)

/-- C7 (amended): on the spec §8 example `allocate_rollwise` places
S1..S5 on the first five seats as stated; with a sixth student S6 the
rooms still have a sixth seat (capacity 4 + 2 = 6), and S6 is assigned
seat 102-R1C2 rather than being left unallocated. -/
theorem claim_rollwise_example :
    (allocate_rollwise dbExample).2.2.allocations.map
        (fun rec => (rec.roll_no, rec.seat_number)) =
      [("S1", "101-R1C1"), ("S2", "101-R1C2"), ("S3", "101-R2C1"),
        ("S4", "101-R2C2"), ("S5", "102-R1C1")] ∧
    (allocate_rollwise dbExampleSix).2.2.allocations.map
        (fun rec => (rec.roll_no, rec.seat_number)) =
      [("S1", "101-R1C1"), ("S2", "101-R1C2"), ("S3", "101-R2C1"),
        ("S4", "101-R2C2"), ("S5", "102-R1C1"), ("S6", "102-R1C2")] := by
  constructor <;> rfl

/-- C7 counterexample to the claim as stated: the sixth student S6 does
receive a seat (the claim asserts S6 would receive no allocation). -/
theorem claim_rollwise_example_cex :
    "S6" ∈ (allocate_rollwise dbExampleSix).2.2.allocations.map AllocationRec.roll_no := by
  decide

theorem sortStudents_sorted (l : List Student) :
    (sortStudents l).Pairwise (fun a b => a.roll_no ≤ b.roll_no) := by
  haveI : IsTrans Student (fun a b => a.roll_no.data ≤ b.roll_no.data) :=
    ⟨fun a b c hab hbc => String.le_iff_toList_le.mp
      (le_trans (String.le_iff_toList_le.mpr hab) (String.le_iff_toList_le.mpr hbc))⟩
  haveI : IsTotal Student (fun a b => a.roll_no.data ≤ b.roll_no.data) :=
    ⟨fun a b => (le_total a.roll_no b.roll_no).imp
      String.le_iff_toList_le.mp String.le_iff_toList_le.mp⟩
  have h := List.sorted_insertionSort (fun a b => a.roll_no.data ≤ b.roll_no.data) l
  exact h.imp fun hab => String.le_iff_toList_le.mpr hab

theorem sortRooms_sorted (l : List Room) :
    (sortRooms l).Pairwise (fun a b => a.room_no ≤ b.room_no) := by
  haveI : IsTrans Room (fun a b => a.room_no.data ≤ b.room_no.data) :=
    ⟨fun a b c hab hbc => String.le_iff_toList_le.mp
      (le_trans (String.le_iff_toList_le.mpr hab) (String.le_iff_toList_le.mpr hbc))⟩
  haveI : IsTotal Room (fun a b => a.room_no.data ≤ b.room_no.data) :=
    ⟨fun a b => (le_total a.room_no b.room_no).imp
      String.le_iff_toList_le.mp String.le_iff_toList_le.mp⟩
  have h := List.sorted_insertionSort (fun a b => a.room_no.data ≤ b.room_no.data) l
  exact h.imp fun hab => String.le_iff_toList_le.mpr hab

/-- C1: with nonempty students and rooms, rollwise sorts the students
ascending by roll number, assigns the i-th sorted student to the i-th
seat of the seat sequence (rooms in ascending room-number order,
row-major within each room), truncating at min(#students, #seats);
students beyond the seat count receive no allocation, and the result is
success with a message reporting min(#students, #seats) as the count. -/
theorem claim_rollwise_sorted_assignment (db : Store)
    (hs : db.students ≠ []) (hr : db.rooms ≠ [])
    (hroll : (db.students.map Student.roll_no).Nodup) :
    List.Perm (sortStudents (sortStudents db.students)) db.students ∧
    (sortStudents (sortStudents db.students)).Pairwise (fun a b => a.roll_no ≤ b.roll_no) ∧
    List.Perm (sortRooms db.rooms) db.rooms ∧
    (sortRooms db.rooms).Pairwise (fun a b => a.room_no ≤ b.room_no) ∧
    (allocate_rollwise db).1 = true ∧
    (allocate_rollwise db).2.1 =
      "Successfully allocated " ++
        toString (min db.students.length (room_seats (sortRooms db.rooms)).length) ++
        " students rollwise." ∧
    (allocate_rollwise db).2.2.allocations =
      List.zipWith (seatRec "rollwise") (sortStudents (sortStudents db.students))
        (room_seats (sortRooms db.rooms)) ∧
    (allocate_rollwise db).2.2.allocations.length =
      min db.students.length (room_seats (sortRooms db.rooms)).length ∧
    ∀ stu ∈ (sortStudents (sortStudents db.students)).drop
        (room_seats (sortRooms db.rooms)).length,
      stu.roll_no ∉ (allocate_rollwise db).2.2.allocations.map AllocationRec.roll_no := by
  obtain ⟨h1, h2, h3⟩ := allocate_rollwise_success db hs hr
  have hperm : List.Perm (sortStudents (sortStudents db.students)) db.students :=
    (sortStudents_perm _).trans (sortStudents_perm _)
  refine ⟨hperm, sortStudents_sorted _, sortRooms_perm _, sortRooms_sorted _, h1, h2, h3,
    ?_, ?_⟩
  · rw [h3, List.length_zipWith, hperm.length_eq]
  · intro stu hstu hmem
    rw [h3] at hmem
    have hmap : (List.zipWith (seatRec "rollwise") (sortStudents (sortStudents db.students))
        (room_seats (sortRooms db.rooms))).map AllocationRec.roll_no =
        ((sortStudents (sortStudents db.students)).take
          (room_seats (sortRooms db.rooms)).length).map Student.roll_no :=
      map_zipWith_left (seatRec "rollwise") AllocationRec.roll_no Student.roll_no
        (fun a b => rfl) _ _
    rw [hmap] at hmem
    have hnd : ((sortStudents (sortStudents db.students)).map Student.roll_no).Nodup :=
      ((hperm.map Student.roll_no).nodup_iff).mpr hroll
    have hnd2 : (((sortStudents (sortStudents db.students)).take
          (room_seats (sortRooms db.rooms)).length).map Student.roll_no ++
        ((sortStudents (sortStudents db.students)).drop
          (room_seats (sortRooms db.rooms)).length).map Student.roll_no).Nodup := by
      rw [← List.map_append, List.take_append_drop]
      exact hnd
    exact (List.nodup_append.mp hnd2).2.2 hmem (List.mem_map_of_mem _ hstu)

theorem claim_rollwise_sorted_assignment_witness :
    (allocate_rollwise dbExample).1 = true ∧
    (allocate_rollwise dbExample).2.1 = "Successfully allocated 5 students rollwise." ∧
    (allocate_rollwise dbExample).2.2.allocations =
      List.zipWith (seatRec "rollwise") (sortStudents (sortStudents dbExample.students))
        (room_seats (sortRooms dbExample.rooms)) := by
  have h := claim_rollwise_sorted_assignment dbExample (by decide) (by decide) (by decide)
  exact ⟨h.2.2.2.2.1, by rw [h.2.2.2.2.2.1]; decide, h.2.2.2.2.2.2.1⟩

/-- C8: for every shuffle outcome that is a permutation of the fetched
student list, `allocate_random` assigns the j-th shuffled student to the
j-th seat of the same seat sequence used by rollwise, with the same
truncation; the written records form a partial injection: no roll number
and no seat appears twice. -/
theorem claim_random_shuffled_assignment (shuffle : List Student → List Student)
    (db : Store) (hshuf : ∀ l, List.Perm (shuffle l) l)
    (hs : db.students ≠ []) (hr : db.rooms ≠ [])
    (hroll : (db.students.map Student.roll_no).Nodup)
    (hroom : (db.rooms.map Room.room_no).Nodup) :
    List.Perm (shuffle (sortStudents db.students)) db.students ∧
    (allocate_random shuffle db).1 = true ∧
    (allocate_random shuffle db).2.2.allocations =
      List.zipWith (seatRec "random") (shuffle (sortStudents db.students))
        (room_seats (sortRooms db.rooms)) ∧
    (allocate_random shuffle db).2.2.allocations.length =
      min db.students.length (room_seats (sortRooms db.rooms)).length ∧
    ((allocate_random shuffle db).2.2.allocations.map AllocationRec.roll_no).Nodup ∧
    ((allocate_random shuffle db).2.2.allocations.map
      (fun rec => (rec.room_no, rec.row_num, rec.col_num))).Nodup := by
  obtain ⟨h1, h2, h3⟩ := allocate_random_success shuffle db hs hr
  have hperm : List.Perm (shuffle (sortStudents db.students)) db.students :=
    (hshuf _).trans (sortStudents_perm _)
  have hmaproll : (allocate_random shuffle db).2.2.allocations.map AllocationRec.roll_no =
      ((shuffle (sortStudents db.students)).take
        (room_seats (sortRooms db.rooms)).length).map Student.roll_no := by
    rw [h3]
    exact map_zipWith_left (seatRec "random") AllocationRec.roll_no Student.roll_no
      (fun a b => rfl) _ _
  have hmapseat : (allocate_random shuffle db).2.2.allocations.map
        (fun rec => (rec.room_no, rec.row_num, rec.col_num)) =
      ((room_seats (sortRooms db.rooms)).take
        (shuffle (sortStudents db.students)).length).map seatKey := by
    rw [h3]
    exact map_zipWith_right (seatRec "random")
      (fun rec => (rec.room_no, rec.row_num, rec.col_num)) seatKey (fun a b => rfl) _ _
  refine ⟨hperm, h1, h3, ?_, ?_, ?_⟩
  · rw [h3, List.length_zipWith, hperm.length_eq]
  · rw [hmaproll, List.map_take]
    exact List.Nodup.sublist (List.take_sublist _ _)
      (((hperm.map Student.roll_no).nodup_iff).mpr hroll)
  · rw [hmapseat, List.map_take]
    exact List.Nodup.sublist (List.take_sublist _ _)
      (room_seats_keys_nodup (((sortRooms_perm _).map Room.room_no).nodup_iff.mpr hroom))

theorem claim_random_shuffled_assignment_witness :
    (allocate_random (fun l => l.reverse) dbExample).1 = true ∧
    (allocate_random (fun l => l.reverse) dbExample).2.2.allocations =
      List.zipWith (seatRec "random") ((sortStudents dbExample.students).reverse)
        (room_seats (sortRooms dbExample.rooms)) ∧
    ((allocate_random (fun l => l.reverse) dbExample).2.2.allocations.map
      AllocationRec.roll_no).Nodup := by
  have h := claim_random_shuffled_assignment (fun l => l.reverse) dbExample
    (fun l => l.reverse_perm) (by decide) (by decide) (by decide) (by decide)
  exact ⟨h.2.1, h.2.2.1, h.2.2.2.2.1⟩

theorem antiCheatTrace_eq (shufA shufB : List Student → List Student)
    (students : List Student) (rooms : List Room) {ca cb : String} {rest : List String}
    (hc : firstSeenCodes students = ca :: cb :: rest) :
    antiCheatTrace shufA shufB students rooms =
      zigzagRun (roomSlots rooms) (shufA (groupOf students ca))
        (shufB (groupOf students cb)) := by
  rw [antiCheatTrace, hc]

theorem roomSlots_length (rooms : List Room) :
    (roomSlots rooms).length = (rooms.map fun room => room.rows * room.columns).sum := by
  simp [roomSlots, Function.comp_def, Nat.mul_comm]

/-- A store with two alternating subject codes and one 2×2 room. -/
def dbTwoGroups : Store :=
  { students := [wStudent "S1" "A", wStudent "S2" "B", wStudent "S3" "A",
      wStudent "S4" "B", wStudent "S5" "A", wStudent "S6" "B"],
    rooms := [wRoom "101" 2 2], allocations := [], activity_log := [] }

/-- A store with three subject codes and one 2×2 room. -/
def dbThreeGroups : Store :=
  { students := [wStudent "S1" "A", wStudent "S2" "B", wStudent "S3" "C",
      wStudent "S4" "A", wStudent "S5" "B", wStudent "S6" "C"],
    rooms := [wRoom "101" 2 2], allocations := [], activity_log := [] }

/-- C10: for every accepted input of `allocate_anti_cheating` (nonempty
students and rooms, at least two subject-code groups), the number of
students allocated equals exactly min(|group A| + |group B|, total number
of seats over all rooms), and the success message reports that count. -/
theorem claim_anti_count_min (shufA shufB : List Student → List Student) (db : Store)
    (hA : ∀ l, List.Perm (shufA l) l) (hB : ∀ l, List.Perm (shufB l) l)
    (hs : db.students ≠ []) (hr : db.rooms ≠ [])
    (ca cb : String) (rest : List String)
    (hc : firstSeenCodes (sortStudents db.students) = ca :: cb :: rest) :
    (allocate_anti_cheating shufA shufB db).1 = true ∧
    (allocate_anti_cheating shufA shufB db).2.2.allocations.length =
      min ((groupOf (sortStudents db.students) ca).length +
          (groupOf (sortStudents db.students) cb).length)
        ((db.rooms.map fun room => room.rows * room.columns).sum) ∧
    (allocate_anti_cheating shufA shufB db).2.1 =
      "Successfully allocated " ++
        toString (allocate_anti_cheating shufA shufB db).2.2.allocations.length ++
        " students in Anti-Cheating Zig-Zag mode." := by
  have h2 : 2 ≤ (firstSeenCodes (sortStudents db.students)).length := by
    rw [hc]; simp [Nat.le_add_left]
  obtain ⟨h1, hmsg, halloc⟩ := allocate_anti_success shufA shufB db hs hr h2
  have htr := antiCheatTrace_eq shufA shufB _ (sortRooms db.rooms) hc
  have hlen : (antiCheatTrace shufA shufB (sortStudents db.students)
      (sortRooms db.rooms)).length =
      min ((groupOf (sortStudents db.students) ca).length +
          (groupOf (sortStudents db.students) cb).length)
        ((db.rooms.map fun room => room.rows * room.columns).sum) := by
    rw [htr, zigzagRun_length]
    congr 1
    · rw [(hA _).length_eq, (hB _).length_eq]
    · rw [roomSlots_length]
      exact ((sortRooms_perm db.rooms).map _).sum_eq
  refine ⟨h1, ?_, ?_⟩
  · rw [halloc, List.length_map, hlen]
  · rw [hmsg, halloc, List.length_map]

theorem claim_anti_count_min_witness :
    (allocate_anti_cheating id id dbTwoGroups).1 = true ∧
    (allocate_anti_cheating id id dbTwoGroups).2.2.allocations.length =
      min ((groupOf (sortStudents dbTwoGroups.students) "A").length +
          (groupOf (sortStudents dbTwoGroups.students) "B").length)
        ((dbTwoGroups.rooms.map fun room => room.rows * room.columns).sum) ∧
    (allocate_anti_cheating id id dbTwoGroups).2.1 =
      "Successfully allocated " ++
        toString (allocate_anti_cheating id id dbTwoGroups).2.2.allocations.length ++
        " students in Anti-Cheating Zig-Zag mode." :=
  claim_anti_count_min id id dbTwoGroups (fun l => List.Perm.refl l)
    (fun l => List.Perm.refl l) (by decide) (by decide) "A" "B" [] (by decide)

/-- C6: with three or more distinct subject-code groups,
`allocate_anti_cheating` still succeeds but seats only students of the
first two groups; every student of any further group receives no
allocation, and the total allocated is at most |group A| + |group B|. -/
theorem claim_anti_first_two_groups (shufA shufB : List Student → List Student)
    (db : Store) (hA : ∀ l, List.Perm (shufA l) l) (hB : ∀ l, List.Perm (shufB l) l)
    (hs : db.students ≠ []) (hr : db.rooms ≠ [])
    (hroll : (db.students.map Student.roll_no).Nodup)
    (ca cb : String) (rest : List String)
    (hc : firstSeenCodes (sortStudents db.students) = ca :: cb :: rest)
    (h3 : 3 ≤ (firstSeenCodes (sortStudents db.students)).length) :
    (allocate_anti_cheating shufA shufB db).1 = true ∧
    (∀ rec ∈ (allocate_anti_cheating shufA shufB db).2.2.allocations,
      rec.roll_no ∈ (groupOf (sortStudents db.students) ca ++
        groupOf (sortStudents db.students) cb).map Student.roll_no) ∧
    (∀ s ∈ db.students, s.subject_code ≠ ca → s.subject_code ≠ cb →
      s.roll_no ∉ (allocate_anti_cheating shufA shufB db).2.2.allocations.map
        AllocationRec.roll_no) ∧
    (allocate_anti_cheating shufA shufB db).2.2.allocations.length ≤
      (groupOf (sortStudents db.students) ca).length +
        (groupOf (sortStudents db.students) cb).length := by
  have h2 : 2 ≤ (firstSeenCodes (sortStudents db.students)).length := by omega
  obtain ⟨h1, hmsg, halloc⟩ := allocate_anti_success shufA shufB db hs hr h2
  have htr := antiCheatTrace_eq shufA shufB _ (sortRooms db.rooms) hc
  have hmemrec : ∀ rec ∈ (allocate_anti_cheating shufA shufB db).2.2.allocations,
      rec.roll_no ∈ (groupOf (sortStudents db.students) ca ++
        groupOf (sortStudents db.students) cb).map Student.roll_no := by
    intro rec hrec
    rw [halloc, htr] at hrec
    obtain ⟨e, he, rfl⟩ := List.mem_map.mp hrec
    have hstu := zigzagRun_student_mem _ _ _ e he
    have hmem : e.student ∈ groupOf (sortStudents db.students) ca ++
        groupOf (sortStudents db.students) cb := by
      rcases List.mem_append.mp hstu with h | h
      · exact List.mem_append_left _ ((hA _).mem_iff.mp h)
      · exact List.mem_append_right _ ((hB _).mem_iff.mp h)
    exact List.mem_map_of_mem _ hmem
  refine ⟨h1, hmemrec, ?_, ?_⟩
  · intro s hsmem hsca hscb hin
    obtain ⟨rec, hrec, hrecroll⟩ := List.mem_map.mp hin
    have := hmemrec rec hrec
    rw [hrecroll] at this
    obtain ⟨x, hx, hxroll⟩ := List.mem_map.mp this
    have hxs : x ∈ sortStudents db.students := by
      rcases List.mem_append.mp hx with h | h
      · exact (groupOf_sublist _ _).mem h
      · exact (groupOf_sublist _ _).mem h
    have hxs2 : x ∈ db.students := (sortStudents_perm _).mem_iff.mp hxs
    have hxeq : x = s := List.inj_on_of_nodup_map hroll hxs2 hsmem hxroll
    rcases List.mem_append.mp hx with h | h
    · exact hsca (hxeq ▸ groupOf_code x h)
    · exact hscb (hxeq ▸ groupOf_code x h)
  · rw [halloc, List.length_map, htr, zigzagRun_length,
      (hA _).length_eq, (hB _).length_eq]
    exact Nat.min_le_left _ _

theorem claim_anti_first_two_groups_witness :
    (allocate_anti_cheating id id dbThreeGroups).1 = true ∧
    (∀ s ∈ dbThreeGroups.students, s.subject_code ≠ "A" → s.subject_code ≠ "B" →
      s.roll_no ∉ (allocate_anti_cheating id id dbThreeGroups).2.2.allocations.map
        AllocationRec.roll_no) ∧
    (allocate_anti_cheating id id dbThreeGroups).2.2.allocations.length ≤
      (groupOf (sortStudents dbThreeGroups.students) "A").length +
        (groupOf (sortStudents dbThreeGroups.students) "B").length := by
  have h := claim_anti_first_two_groups id id dbThreeGroups (fun l => List.Perm.refl l)
    (fun l => List.Perm.refl l) (by decide) (by decide) (by decide) "A" "B" ["C"]
    (by decide) (by decide)
  exact ⟨h.1, h.2.2.1, h.2.2.2⟩

/-- No roll number and no (room, row, column) seat key repeats among a
run's written records. -/
def recsOk (recs : List AllocationRec) : Prop :=
  (recs.map AllocationRec.roll_no).Nodup ∧
  (recs.map fun rec => (rec.room_no, rec.row_num, rec.col_num)).Nodup

theorem zip_recsOk (method : String) (sl : List Student) (rooms : List Room)
    (hsl : (sl.map Student.roll_no).Nodup)
    (hroom : (rooms.map Room.room_no).Nodup) :
    recsOk (List.zipWith (seatRec method) sl (room_seats rooms)) := by
  constructor
  · rw [map_zipWith_left (seatRec method) AllocationRec.roll_no Student.roll_no
      (fun a b => rfl) _ _, List.map_take]
    exact List.Nodup.sublist (List.take_sublist _ _) hsl
  · rw [map_zipWith_right (seatRec method)
      (fun rec => (rec.room_no, rec.row_num, rec.col_num)) seatKey (fun a b => rfl) _ _,
      List.map_take]
    exact List.Nodup.sublist (List.take_sublist _ _) (room_seats_keys_nodup hroom)

theorem zigzag_recsOk {shufA shufB : List Student → List Student} {db : Store}
    (hA : ∀ l, List.Perm (shufA l) l) (hB : ∀ l, List.Perm (shufB l) l)
    (hroll : (db.students.map Student.roll_no).Nodup)
    (hroom : (db.rooms.map Room.room_no).Nodup)
    {ca cb : String} {rest : List String}
    (hc : firstSeenCodes (sortStudents db.students) = ca :: cb :: rest) :
    recsOk ((antiCheatTrace shufA shufB (sortStudents db.students)
      (sortRooms db.rooms)).map entryRec) := by
  have hab : ca ≠ cb := by
    have hnd := firstSeenCodes_nodup (sortStudents db.students)
    rw [hc, List.nodup_cons] at hnd
    exact fun h => hnd.1 (h ▸ List.mem_cons_self _ _)
  have hssroll : ((sortStudents db.students).map Student.roll_no).Nodup :=
    (((sortStudents_perm db.students).map Student.roll_no).nodup_iff).mpr hroll
  have htr := antiCheatTrace_eq shufA shufB _ (sortRooms db.rooms) hc
  rw [htr]
  constructor
  · have hmm : ((antiCheatTrace shufA shufB (sortStudents db.students)
        (sortRooms db.rooms)).map entryRec).map AllocationRec.roll_no =
        (antiCheatTrace shufA shufB (sortStudents db.students)
          (sortRooms db.rooms)).map (fun e => e.student.roll_no) := by
      rw [List.map_map]; rfl
    rw [htr] at hmm
    rw [hmm]
    apply zigzagRun_map_nodup Student.roll_no
    have hpp : List.Perm
        ((shufA (groupOf (sortStudents db.students) ca) ++
          shufB (groupOf (sortStudents db.students) cb)).map Student.roll_no)
        ((groupOf (sortStudents db.students) ca ++
          groupOf (sortStudents db.students) cb).map Student.roll_no) :=
      ((hA _).append (hB _)).map _
    exact hpp.nodup_iff.mpr (groups_roll_nodup hab hssroll)
  · have hmm : ((zigzagRun (roomSlots (sortRooms db.rooms))
        (shufA (groupOf (sortStudents db.students) ca))
        (shufB (groupOf (sortStudents db.students) cb))).map entryRec).map
          (fun rec => (rec.room_no, rec.row_num, rec.col_num)) =
        ((zigzagRun (roomSlots (sortRooms db.rooms))
          (shufA (groupOf (sortStudents db.students) ca))
          (shufB (groupOf (sortStudents db.students) cb))).map ekey).map
            (fun k => (k.1, k.2.1 + 1, k.2.2 + 1)) := by
      rw [List.map_map, List.map_map]; rfl
    rw [hmm]
    refine List.Nodup.map shiftKey_inj ?_
    refine List.Nodup.sublist (zigzagRun_keys_sublist _ _ _) ?_
    exact roomSlots_keys_nodup (((sortRooms_perm _).map Room.room_no).nodup_iff.mpr hroom)

/-- C4: within a single run of any of the three operations, the written
records mention each roll number at most once and each seat
(room number, row, column) at most once. -/
theorem claim_no_duplicate_roll_or_seat (shuffle shufA shufB : List Student → List Student)
    (db : Store) (hshuf : ∀ l, List.Perm (shuffle l) l)
    (hA : ∀ l, List.Perm (shufA l) l) (hB : ∀ l, List.Perm (shufB l) l)
    (hroll : (db.students.map Student.roll_no).Nodup)
    (hroom : (db.rooms.map Room.room_no).Nodup) :
    recsOk (allocate_rollwise db).2.2.allocations ∧
    recsOk (allocate_random shuffle db).2.2.allocations ∧
    recsOk (allocate_anti_cheating shufA shufB db).2.2.allocations := by
  by_cases he : db.students = [] ∨ db.rooms = []
  · rw [allocate_rollwise_fail db he, allocate_random_fail shuffle db he,
      allocate_anti_fail_empty shufA shufB db he]
    refine ⟨⟨?_, ?_⟩, ⟨?_, ?_⟩, ⟨?_, ?_⟩⟩ <;> simp [clear_allocations]
  · push_neg at he
    obtain ⟨hs, hr⟩ := he
    have hroomsorted : ((sortRooms db.rooms).map Room.room_no).Nodup :=
      ((sortRooms_perm _).map Room.room_no).nodup_iff.mpr hroom
    refine ⟨?_, ?_, ?_⟩
    · rw [(allocate_rollwise_success db hs hr).2.2]
      exact zip_recsOk _ _ _
        ((((sortStudents_perm _).trans (sortStudents_perm _)).map
          Student.roll_no).nodup_iff.mpr hroll) hroomsorted
    · rw [(allocate_random_success shuffle db hs hr).2.2]
      exact zip_recsOk _ _ _
        ((((hshuf _).trans (sortStudents_perm _)).map Student.roll_no).nodup_iff.mpr hroll)
        hroomsorted
    · rcases hlen2 : firstSeenCodes (sortStudents db.students) with _ | ⟨ca, _ | ⟨cb, rest⟩⟩
      · rw [allocate_anti_fail_groups shufA shufB db hs hr (by rw [hlen2]; simp)]
        exact ⟨by simp [clear_allocations], by simp [clear_allocations]⟩
      · rw [allocate_anti_fail_groups shufA shufB db hs hr (by rw [hlen2]; simp)]
        exact ⟨by simp [clear_allocations], by simp [clear_allocations]⟩
      · have h2 : 2 ≤ (firstSeenCodes (sortStudents db.students)).length := by
          rw [hlen2]; simp [Nat.le_add_left]
        rw [(allocate_anti_success shufA shufB db hs hr h2).2.2]
        exact zigzag_recsOk hA hB hroll hroom hlen2

theorem claim_no_duplicate_roll_or_seat_witness :
    recsOk (allocate_rollwise dbTwoGroups).2.2.allocations ∧
    recsOk (allocate_random (fun l => l.reverse) dbTwoGroups).2.2.allocations ∧
    recsOk (allocate_anti_cheating id id dbTwoGroups).2.2.allocations :=
  claim_no_duplicate_roll_or_seat (fun l => l.reverse) id id dbTwoGroups
    (fun l => l.reverse_perm) (fun l => List.Perm.refl l) (fun l => List.Perm.refl l)
    (by decide) (by decide)

/-- C2: in the zig-zag scan of `allocate_anti_cheating`, if two occupied
seats lie in the same room, in the same row, at adjacent columns, and
both selected subject-code groups still had unplaced members when the
later (higher-column) seat was filled, then the two seated students
belong to different subject-code groups; moreover the alternation starts
with group A on even 0-based rows and with group B on odd rows, flipping
at every column. -/
theorem claim_anti_no_adjacent_same_group (shufA shufB : List Student → List Student)
    (db : Store) (hA : ∀ l, List.Perm (shufA l) l) (hB : ∀ l, List.Perm (shufB l) l)
    (hroom : (db.rooms.map Room.room_no).Nodup)
    (t : List ZEntry)
    (ht : t = antiCheatTrace shufA shufB (sortStudents db.students) (sortRooms db.rooms))
    (i j : Nat) (hi : i < t.length) (hj : j < t.length)
    (hroomeq : t[i].room_no = t[j].room_no) (hroweq : t[i].r = t[j].r)
    (hcol : t[j].c = t[i].c + 1)
    (haj : t[j].aAvail = true) (hbj : t[j].bAvail = true) :
    t[i].student.subject_code ≠ t[j].student.subject_code ∧
    (∀ r, zigzagCourseIsA r 0 = decide (r % 2 = 0)) ∧
    (∀ r c, zigzagCourseIsA r (c + 1) = !zigzagCourseIsA r c) := by
  refine ⟨?_, zigzagCourseIsA_zero, zigzagCourseIsA_succ⟩
  rcases hcs : firstSeenCodes (sortStudents db.students) with _ | ⟨ca, _ | ⟨cb, rest⟩⟩
  · rw [ht, antiCheatTrace, hcs] at hi; simp at hi
  · rw [ht, antiCheatTrace, hcs] at hi; simp at hi
  have htr : t = zigzagRun (roomSlots (sortRooms db.rooms))
      (shufA (groupOf (sortStudents db.students) ca))
      (shufB (groupOf (sortStudents db.students) cb)) := by
    rw [ht]; exact antiCheatTrace_eq shufA shufB _ _ hcs
  have hga : ∀ x ∈ shufA (groupOf (sortStudents db.students) ca), x.subject_code = ca :=
    fun x hx => groupOf_code x ((hA _).mem_iff.mp hx)
  have hgb : ∀ x ∈ shufB (groupOf (sortStudents db.students) cb), x.subject_code = cb :=
    fun x hx => groupOf_code x ((hB _).mem_iff.mp hx)
  have hab : ca ≠ cb := by
    have hnd := firstSeenCodes_nodup (sortStudents db.students)
    rw [hcs, List.nodup_cons] at hnd
    exact fun h => hnd.1 (h ▸ List.mem_cons_self _ _)
  have hroomsorted : ((sortRooms db.rooms).map Room.room_no).Nodup :=
    ((sortRooms_perm _).map Room.room_no).nodup_iff.mpr hroom
  have hpair : t.Pairwise (fun e1 e2 => slotBefore (ekey e1) (ekey e2)) := by
    apply List.pairwise_map.mp
    rw [htr]
    exact List.Pairwise.sublist (zigzagRun_keys_sublist _ _ _)
      (roomSlots_keys_pairwise hroomsorted)
  have hgetp := List.pairwise_iff_getElem.mp hpair
  have hij : i < j := by
    rcases Nat.lt_trichotomy i j with h | h | h
    · exact h
    · exfalso; subst h; omega
    · exfalso
      have hsb := hgetp j i hj hi h
      rcases hsb with hne | ⟨-, hlt | ⟨-, hlt⟩⟩
      · exact hne hroomeq.symm
      · simp only [ekey] at hlt; omega
      · simp only [ekey] at hlt; omega
  have hmono : t.Pairwise (fun e1 e2 => (e2.aAvail = true → e1.aAvail = true) ∧
      (e2.bAvail = true → e1.bAvail = true)) := by
    rw [htr]; exact zigzagRun_avail_pairwise _ _ _
  have havij := List.pairwise_iff_getElem.mp hmono i j hi hj hij
  have hai : t[i].aAvail = true := havij.1 haj
  have hbi : t[i].bAvail = true := havij.2 hbj
  have hmi : t[i] ∈ zigzagRun (roomSlots (sortRooms db.rooms))
      (shufA (groupOf (sortStudents db.students) ca))
      (shufB (groupOf (sortStudents db.students) cb)) := by
    rw [← htr]; exact List.getElem_mem hi
  have hmj : t[j] ∈ zigzagRun (roomSlots (sortRooms db.rooms))
      (shufA (groupOf (sortStudents db.students) ca))
      (shufB (groupOf (sortStudents db.students) cb)) := by
    rw [← htr]; exact List.getElem_mem hj
  have hfi := zigzagRun_fromA _ _ _ t[i] hmi
  have hfj := zigzagRun_fromA _ _ _ t[j] hmj
  rw [hai, hbi] at hfi
  rw [haj, hbj] at hfj
  have hdes : zigzagCourseIsA t[j].r t[j].c = !zigzagCourseIsA t[i].r t[i].c := by
    rw [← hroweq, hcol]
    exact zigzagCourseIsA_succ _ _
  have hfi2 : t[i].fromA = zigzagCourseIsA t[i].r t[i].c := by
    rw [hfi]; cases zigzagCourseIsA t[i].r t[i].c <;> simp
  have hfj2 : t[j].fromA = !zigzagCourseIsA t[i].r t[i].c := by
    rw [hfj, hdes]; cases zigzagCourseIsA t[i].r t[i].c <;> simp
  have hmsi := zigzagRun_mem_student _ _ _ t[i] hmi
  have hmsj := zigzagRun_mem_student _ _ _ t[j] hmj
  cases hd : zigzagCourseIsA t[i].r t[i].c with
  | true =>
    have h1 : t[i].student.subject_code = ca := hga _ (hmsi.1 (by rw [hfi2, hd]))
    have h2 : t[j].student.subject_code = cb := hgb _ (hmsj.2 (by rw [hfj2, hd]; rfl))
    rw [h1, h2]; exact hab
  | false =>
    have h1 : t[i].student.subject_code = cb := hgb _ (hmsi.2 (by rw [hfi2, hd]))
    have h2 : t[j].student.subject_code = ca := hga _ (hmsj.1 (by rw [hfj2, hd]; rfl))
    rw [h1, h2]; exact fun h => hab h.symm

theorem claim_anti_no_adjacent_same_group_witness :
    ((antiCheatTrace id id (sortStudents dbTwoGroups.students)
        (sortRooms dbTwoGroups.rooms)).get ⟨0, by decide⟩).student.subject_code ≠
      ((antiCheatTrace id id (sortStudents dbTwoGroups.students)
        (sortRooms dbTwoGroups.rooms)).get ⟨1, by decide⟩).student.subject_code ∧
    (∀ r, zigzagCourseIsA r 0 = decide (r % 2 = 0)) ∧
    (∀ r c, zigzagCourseIsA r (c + 1) = !zigzagCourseIsA r c) :=
  claim_anti_no_adjacent_same_group id id dbTwoGroups (fun l => List.Perm.refl l)
    (fun l => List.Perm.refl l) (by decide) _ rfl 0 1 (by decide) (by decide)
    (by decide) (by decide) (by decide) (by decide) (by decide)

end ExamSeating
